import Mathlib

set_option maxHeartbeats 1000000

/-
Shallow embedding of the raxrs calculator (src/main.rs): a multi-base
numeric-literal converter, a tokenizer, a shunting-yard transformer and a
postfix evaluator, plus the batch-mode driver.

Modelling conventions:
* Rust strings are `List Char` in the core functions, `String` at the API
  (Lean `String` wraps a `List Char`, so the two are interchangeable).
* `i64` is `Int`; range checks are explicit (`2 ^ 63` bounds) and
  two's-complement formatting uses `Int.emod _ (2 ^ 64)`.  Overflow of the
  arithmetic operators wraps (release-profile semantics); division overflow
  always aborts in Rust and is modelled by the `panic` outcome.
* Fallible operations return `Option` / `Except`.
* The `while !all_chars_ok { reconvert }` loops have no bound in the source;
  they are modelled with a fuel parameter.  A `none` / `diverge` result for
  every fuel value means the Rust loop never exits.
* `f64` parsing and bit-level formatting in the `Fx` / trailing-`f` rules is
  Rust standard-library behaviour (an external dependency of this crate);
  it is passed in as a `FloatOps` record.  No claim depends on its values.
* `char::is_numeric` is modelled as the ASCII digit test: every character
  the program ever feeds to that test comes from ASCII literals or from
  `parse_num` output, which is ASCII.
-/

inductive BaseConversionError
  | ParseIntError
  | InvalidInputFormat
deriving DecidableEq

inductive Token
  | Number (literal : String)
  | Plus
  | Minus
  | Star
  | Slash
  | LParen
  | RParen
deriving DecidableEq

/-- External f64 behaviour used by the `Fx` prefix rule and trailing-`f`
rule of `parse_num`: `f64::from_bits(u).to_string()` and
`s.parse::<f64>().map(f64::to_bits)`. -/
structure FloatOps where
  fromBitsToStr : Nat → List Char
  parseFloatBits : List Char → Option Nat

/-- Trivial instantiation of the external float operations, used for the
concrete test inputs (none of which reach a float rule). -/
def dummyFops : FloatOps :=
  { fromBitsToStr := fun _ => [], parseFloatBits := fun _ => none }

def isDigitCh (c : Char) : Bool :=
  decide (48 ≤ c.toNat ∧ c.toNat ≤ 57)

def isHexDigitCh (c : Char) : Bool :=
  decide (48 ≤ c.toNat ∧ c.toNat ≤ 57) || decide (97 ≤ c.toNat ∧ c.toNat ≤ 102)

/-- Digit-to-character table used by Rust's `{:x}` / `{:b}` / `{:o}` and
decimal formatting (values below 16 only). -/
def digitChar (d : Nat) : Char :=
  match d with
  | 0 => '0' | 1 => '1' | 2 => '2' | 3 => '3' | 4 => '4'
  | 5 => '5' | 6 => '6' | 7 => '7' | 8 => '8' | 9 => '9'
  | 10 => 'a' | 11 => 'b' | 12 => 'c' | 13 => 'd' | 14 => 'e' | 15 => 'f'
  | _ => '*'

/-- `char::to_digit` without the radix bound: digits, then lowercase, then
uppercase letters. -/
def charDigitVal (c : Char) : Option Nat :=
  if 48 ≤ c.toNat ∧ c.toNat ≤ 57 then some (c.toNat - 48)
  else if 97 ≤ c.toNat ∧ c.toNat ≤ 122 then some (c.toNat - 87)
  else if 65 ≤ c.toNat ∧ c.toNat ≤ 90 then some (c.toNat - 55)
  else none

/-- `char::to_digit(radix)`. -/
def toDigit (c : Char) (radix : Nat) : Option Nat :=
  match charDigitVal c with
  | some d => if d < radix then some d else none
  | none => none

/-- Digit-accumulation loop of `from_str_radix`.  The source checks overflow
at each step; since accumulation is monotone this is equivalent to checking
the final value, which the callers below do. -/
def parseDigitsGo (radix : Nat) (acc : Nat) : List Char → Option Nat
  | [] => some acc
  | c :: rest =>
    match toDigit c radix with
    | some d => parseDigitsGo radix (acc * radix + d) rest
    | none => none

def parseDigitsNat (radix : Nat) (l : List Char) : Option Nat :=
  if l = [] then none else parseDigitsGo radix 0 l

def posRange (v : Nat) : Option Int :=
  if v ≤ 2 ^ 63 - 1 then some (v : Int) else none

def negRange (v : Nat) : Option Int :=
  if v ≤ 2 ^ 63 then some (-(v : Int)) else none

/-- `i64::from_str_radix`: optional sign, at least one digit, value within
the signed 64-bit range. -/
def i64FromStrRadix (radix : Nat) (l : List Char) : Option Int :=
  match l with
  | [] => none
  | c :: rest =>
    if c = '+' then (parseDigitsNat radix rest).bind posRange
    else if c = '-' then (parseDigitsNat radix rest).bind negRange
    else (parseDigitsNat radix (c :: rest)).bind posRange

/-- `u64::from_str_radix` (used only for the `Fx` rule's bit pattern).
Unsigned parsing only strips a leading `+`; a `-` is left in place and
then fails the digit scan, so any `-`-signed input is rejected. -/
def u64FromStrRadix (radix : Nat) (l : List Char) : Option Nat :=
  match l with
  | [] => none
  | c :: rest =>
    if c = '+' then (parseDigitsNat radix rest).bind fun v =>
      if v < 2 ^ 64 then some v else none
    else (parseDigitsNat radix (c :: rest)).bind fun v =>
      if v < 2 ^ 64 then some v else none

/-- Fuel-driven most-significant-first digit rendering (Rust `{:x}` etc.).
`natToDigits` below always supplies enough fuel. -/
def toDigitsGo (base : Nat) : Nat → Nat → List Char → List Char
  | 0, _, acc => acc
  | fuel + 1, n, acc =>
    if n < base then digitChar n :: acc
    else toDigitsGo base fuel (n / base) (digitChar (n % base) :: acc)

def natToDigits (base n : Nat) : List Char :=
  toDigitsGo base (n + 1) n []

/-- Reinterpret an `i64` value as its unsigned 64-bit (two's-complement)
bit pattern, as Rust's `{:x}` / `{:b}` / `{:o}` formatting of `i64` does. -/
def toU64 (n : Int) : Nat := (Int.emod n (2 ^ 64)).toNat

/-- `i64::to_string`: signed decimal. -/
def i64ToStringL (n : Int) : List Char :=
  if n < 0 then '-' :: natToDigits 10 (-n).toNat else natToDigits 10 n.toNat

/-- `str::starts_with` for a one-character pattern. -/
def startsWith1 (a : Char) (l : List Char) : Bool :=
  match l with
  | x :: _ => decide (x = a)
  | [] => false

/-- `str::starts_with` for a two-character pattern. -/
def startsWith2 (a b : Char) (l : List Char) : Bool :=
  match l with
  | x :: y :: _ => decide (x = a) && decide (y = b)
  | _ => false

/-- `str::ends_with` for a one-character pattern. -/
def endsWith1 (a : Char) (l : List Char) : Bool :=
  match l.getLast? with
  | some c => decide (c = a)
  | none => false

/-- `fn parse_num`, the literal converter, on character lists.  The ten
pattern rules are checked in source order; first match wins. -/
def parse_num_core (fops : FloatOps) (input : List Char) :
    Except BaseConversionError (List Char) :=
  if startsWith2 '0' 'x' input then
    match i64FromStrRadix 16 (input.drop 2) with
    | some num => .ok (i64ToStringL num)
    | none => .error .ParseIntError
  else if startsWith1 'b' input then
    match i64FromStrRadix 10 (input.drop 1) with
    | some num => .ok (natToDigits 2 (toU64 num) ++ ['b'])
    | none => .error .ParseIntError
  else if startsWith2 'F' 'x' input then
    match u64FromStrRadix 16 (input.drop 2) with
    | some bits => .ok (fops.fromBitsToStr bits)
    | none => .error .ParseIntError
  else if startsWith2 'B' 'x' input then
    match i64FromStrRadix 16 (input.drop 2) with
    | some num => .ok (natToDigits 2 (toU64 num))
    | none => .error .ParseIntError
  else if startsWith2 'O' 'x' input then
    match i64FromStrRadix 16 (input.drop 2) with
    | some num => .ok (natToDigits 8 (toU64 num))
    | none => .error .ParseIntError
  else if endsWith1 'd' input then
    match i64FromStrRadix 2 input.dropLast with
    | some num => .ok (i64ToStringL num)
    | none => .error .ParseIntError
  else if endsWith1 'f' input then
    match fops.parseFloatBits input.dropLast with
    | some bits => .ok ('0' :: 'x' :: natToDigits 16 bits)
    | none => .error .ParseIntError
  else if endsWith1 'o' input then
    match i64FromStrRadix 8 input.dropLast with
    | some num => .ok ('0' :: 'x' :: natToDigits 16 (toU64 num))
    | none => .error .ParseIntError
  else if endsWith1 'b' input then
    match i64FromStrRadix 2 input.dropLast with
    | some num => .ok ('0' :: 'x' :: natToDigits 16 (toU64 num))
    | none => .error .ParseIntError
  else
    match i64FromStrRadix 10 input with
    | some num => .ok ('0' :: 'x' :: natToDigits 16 (toU64 num))
    | none => .error .ParseIntError

/-- `fn parse_num` at the `String` interface. -/
def parse_num (fops : FloatOps) (input : String) :
    Except BaseConversionError String :=
  match parse_num_core fops input.data with
  | .ok l => .ok (String.mk l)
  | .error e => .error e

def isOpChar (c : Char) : Bool :=
  decide (c = '+') || decide (c = '-') || decide (c = '/') ||
  decide (c = '*') || decide (c = '(') || decide (c = ')')

def opTokenOf (c : Char) : Token :=
  if c = '+' then .Plus
  else if c = '-' then .Minus
  else if c = '/' then .Slash
  else if c = '*' then .Star
  else if c = '(' then .LParen
  else .RParen

/-- Tokenizing loop of `fn parse_expr` (the I/O that reads the line is
outside the model).  Note the source behaviour on a conversion failure when
an operator flushes the pending run: the run is *not* cleared. -/
def tokenizeAux (fops : FloatOps) :
    List Char → List Char → List Token → List Token
  | [], curr, tokens =>
    if curr = [] then tokens
    else
      match parse_num_core fops curr with
      | .ok num => tokens ++ [.Number (String.mk num)]
      | .error _ => tokens
  | c :: rest, curr, tokens =>
    if c = ' ' then tokenizeAux fops rest curr tokens
    else if isOpChar c then
      if curr = [] then tokenizeAux fops rest [] (tokens ++ [opTokenOf c])
      else
        match parse_num_core fops curr with
        | .ok num =>
          tokenizeAux fops rest [] (tokens ++ [.Number (String.mk num), opTokenOf c])
        | .error _ => tokenizeAux fops rest curr (tokens ++ [opTokenOf c])
    else tokenizeAux fops rest (curr ++ [c]) tokens

def tokenize (fops : FloatOps) (line : String) : List Token :=
  tokenizeAux fops line.data [] []

def notLParen : Token → Bool
  | .LParen => false
  | _ => true

/-- `fn infix_to_postfix`, the shunting-yard loop.  The operator stack is a
list with its head as the top. -/
def i2pAux : List Token → List Token → List Token → List Token
  | [], out, opstack => out ++ opstack
  | .Number s :: rest, out, opstack => i2pAux rest (out ++ [.Number s]) opstack
  | .LParen :: rest, out, opstack => i2pAux rest out (.LParen :: opstack)
  | .RParen :: rest, out, opstack =>
    i2pAux rest (out ++ opstack.takeWhile notLParen)
      (match opstack.dropWhile notLParen with
       | _ :: r => r
       | [] => [])
  | t :: rest, out, opstack =>
    i2pAux rest (out ++ opstack.takeWhile notLParen)
      (t :: opstack.dropWhile notLParen)

def infix_to_postfix (tokens : List Token) : List Token :=
  i2pAux tokens [] []

/-- Exit test of the evaluator's re-normalization loop:
`c.is_numeric() || c == '.' || c == '-'` for every character. -/
def isNormChar (c : Char) : Bool :=
  isDigitCh c || decide (c = '.') || decide (c = '-')

def isNormalized (l : List Char) : Bool := l.all isNormChar

/-- The `while !temp_num.chars().all(..)` loop shared by `eval_expr` and the
batch driver, with fuel.  On a conversion failure the source prints a
diagnostic and leaves the literal unchanged, so the loop repeats the same
failing step forever; the fuel then runs out for every value (`none`). -/
def normalizeLit (fops : FloatOps) : Nat → List Char → Option (List Char)
  | 0, l => if isNormalized l then some l else none
  | fuel + 1, l =>
    if isNormalized l then some l
    else
      match parse_num_core fops l with
      | .ok r => normalizeLit fops fuel r
      | .error _ => normalizeLit fops fuel l

/-- Result of `fn eval_expr`: `ok` / `error` mirror `Result<i64, &str>`;
`panic` is a process abort (the `.unwrap()` on the final base-10 parse, or
`i64::MIN / -1`); `diverge` means the normalization loop never exits. -/
inductive EvalOutcome
  | ok (v : Int)
  | error (msg : String)
  | panic
  | diverge
deriving DecidableEq

/-- Two's-complement wrap-around of `i64` arithmetic. -/
def wrap64 (x : Int) : Int :=
  Int.emod (x + 2 ^ 63) (2 ^ 64) - 2 ^ 63

/-- Token loop of `fn eval_expr`; the operand stack has its head as top. -/
def evalAux (fops : FloatOps) (fuel : Nat) : List Token → List Int → EvalOutcome
  | [], stack =>
    match stack with
    | [] => .error "Invalid expression"
    | v :: _ => .ok v
  | .Number num :: rest, stack =>
    match normalizeLit fops fuel num.data with
    | none => .diverge
    | some s =>
      match i64FromStrRadix 10 s with
      | none => .panic
      | some v => evalAux fops fuel rest (v :: stack)
  | .Plus :: rest, stack =>
    match stack with
    | a :: b :: s => evalAux fops fuel rest (wrap64 (b + a) :: s)
    | _ => .error "Invalid expression"
  | .Minus :: rest, stack =>
    match stack with
    | a :: b :: s => evalAux fops fuel rest (wrap64 (b - a) :: s)
    | _ => .error "Invalid expression"
  | .Star :: rest, stack =>
    match stack with
    | a :: b :: s => evalAux fops fuel rest (wrap64 (b * a) :: s)
    | _ => .error "Invalid expression"
  | .Slash :: rest, stack =>
    match stack with
    | a :: b :: s =>
      if a = 0 then .error "Division by zero"
      else if b = -(2 ^ 63) ∧ a = -1 then .panic
      else evalAux fops fuel rest (Int.tdiv b a :: s)
    | _ => .error "Invalid expression"
  | .LParen :: _, _ => .error "Unexpected token"
  | .RParen :: _, _ => .error "Unexpected token"

def eval_expr (fops : FloatOps) (fuel : Nat) (tokens : List Token) : EvalOutcome :=
  evalAux fops fuel tokens []

def basesL : List (List Char) := [['f'], ['2'], ['8'], ['1', '0'], ['1', '6']]

/-- `str::split('=')`. -/
def splitChar (sep : Char) : List Char → List (List Char)
  | [] => [[]]
  | c :: rest =>
    let r := splitChar sep rest
    if c = sep then [] :: r
    else
      match r with
      | h :: t => (c :: h) :: t
      | [] => [[c]]

/-- `fn check_force_output`: first argument that starts with `=` and whose
part after the first `=` is one of `f 2 8 10 16` selects that base. -/
def check_force_output : List String → Option String
  | [] => none
  | arg :: rest =>
    match arg.data with
    | c :: _ =>
      if c = '=' then
        if basesL.contains ((splitChar '=' arg.data).getD 1 []) then
          some (String.mk ((splitChar '=' arg.data).getD 1 []))
        else check_force_output rest
      else check_force_output rest
    | [] => check_force_output rest

/-- The printing at the end of the batch loop body.  The whole `match base`
sits inside `if base.is_some()`, so nothing is printed when no base was
forced; the `_` arm printing `result` is dead code.  (`{:.5}` on an integer
ignores the precision, so the `f` arm prints the plain decimal.) -/
def batchPrint (base : Option String) (tempNum : Int) (result : String) :
    List String :=
  if base.isSome then
    match base with
    | some "f" => [String.mk (i64ToStringL tempNum)]
    | some "2" => [String.mk ('b' :: natToDigits 2 (toU64 tempNum))]
    | some "8" => [String.mk ('O' :: 'x' :: natToDigits 8 (toU64 tempNum))]
    | some "10" => [String.mk (i64ToStringL tempNum)]
    | some "16" => [String.mk ('0' :: 'x' :: natToDigits 16 (toU64 tempNum))]
    | _ => [result]
  else []

/-- One iteration of the batch loop in `fn main`: convert the argument,
re-normalize the result, parse it base 10 (on failure print a diagnostic
and keep `temp_num = 0`), then print per the forced base.  The returned
list is the lines printed for this argument; `none` means the
re-normalization loop diverged. -/
def processInput (fops : FloatOps) (fuel : Nat) (base : Option String)
    (input : String) : Option (List String) :=
  match parse_num fops input with
  | .ok result =>
    match normalizeLit fops fuel result.data with
    | none => none
    | some s =>
      match i64FromStrRadix 10 s with
      | some num => some (batchPrint base num result)
      | none => some ("Failed to convert expression result" :: batchPrint base 0 result)
  | .error .ParseIntError => some ["Error: Failed to parse input"]
  | .error .InvalidInputFormat => some ["Error: Invalid input format"]

def runAll (fops : FloatOps) (fuel : Nat) (base : Option String) :
    List String → Option (List String)
  | [] => some []
  | input :: rest =>
    match processInput fops fuel base input, runAll fops fuel base rest with
    | some out, some outs => some (out ++ outs)
    | _, _ => none

/-- Batch branch of `fn main` (`args.len() > 1`): `argv` includes the
program name at index 0.  When a forced base was found, iteration starts at
index 2 — i.e. the *first* expression argument is skipped, whichever
argument actually matched. -/
def batchMain (fops : FloatOps) (fuel : Nat) (argv : List String) :
    Option (List String) :=
  let base := check_force_output argv
  runAll fops fuel base (argv.drop (if base.isSome then 2 else 1))

/-- Canonical hex-tagged shape from the spec: `"0x"` followed by one or
more hex digits. -/
def isHexTaggedL : List Char → Bool
  | '0' :: 'x' :: rest => !rest.isEmpty && rest.all isHexDigitCh
  | _ => false

/-- Canonical binary-tagged shape from the spec: one or more digits
followed by `'b'`. -/
def isBinTaggedL (l : List Char) : Bool :=
  match l.getLast? with
  | some 'b' => !l.dropLast.isEmpty && l.dropLast.all isDigitCh
  | _ => false

def isHexTagged (s : String) : Bool := isHexTaggedL s.data

def isBinTagged (s : String) : Bool := isBinTaggedL s.data

/-- Numeric value of an all-digit character list. -/
def decimalVal (ds : List Char) : Nat :=
  ds.foldl (fun a c => a * 10 + (c.toNat - 48)) 0

instance {e a : Type} [DecidableEq e] [DecidableEq a] : DecidableEq (Except e a) :=
  fun x y =>
  match x, y with
  | .ok v, .ok w =>
    if h : v = w then isTrue (by rw [h]) else isFalse (by intro hh; cases hh; exact h rfl)
  | .error v, .error w =>
    if h : v = w then isTrue (by rw [h]) else isFalse (by intro hh; cases hh; exact h rfl)
  | .ok _, .error _ => isFalse (by intro hh; cases hh)
  | .error _, .ok _ => isFalse (by intro hh; cases hh)

/-
Digit-rendering and digit-parsing lemmas.
-/

lemma digitChar_isDigit {d : Nat} (h : d < 10) : isDigitCh (digitChar d) = true := by
  interval_cases d <;> decide

lemma digitChar_isHex {d : Nat} (h : d < 16) : isHexDigitCh (digitChar d) = true := by
  interval_cases d <;> decide

lemma charDigitVal_digitChar {d : Nat} (h : d < 16) :
    charDigitVal (digitChar d) = some d := by
  interval_cases d <;> decide

lemma toDigit_digitChar {base d : Nat} (hd : d < base) (h16 : d < 16) :
    toDigit (digitChar d) base = some d := by
  unfold toDigit
  rw [charDigitVal_digitChar h16]
  simp [hd]

lemma digitChar_ne_plus {d : Nat} (h : d < 16) : digitChar d ≠ '+' := by
  interval_cases d <;> decide

lemma digitChar_ne_minus {d : Nat} (h : d < 16) : digitChar d ≠ '-' := by
  interval_cases d <;> decide

lemma toDigitsGo_append (base : Nat) :
    ∀ (fuel n : Nat) (acc : List Char),
      toDigitsGo base fuel n acc = toDigitsGo base fuel n [] ++ acc := by
  intro fuel
  induction fuel with
  | zero => intro n acc; rfl
  | succ f ih =>
    intro n acc
    by_cases h : n < base
    · simp [toDigitsGo, h]
    · simp only [toDigitsGo, if_neg h]
      rw [ih (n / base) (digitChar (n % base) :: acc),
          ih (n / base) [digitChar (n % base)]]
      simp

lemma toDigitsGo_fuel (base : Nat) (hb : 2 ≤ base) :
    ∀ (n f : Nat) (acc : List Char), n < f →
      toDigitsGo base f n acc = toDigitsGo base (n + 1) n acc := by
  intro n
  induction n using Nat.strong_induction_on with
  | _ n ih =>
    intro f acc hf
    obtain ⟨f', rfl⟩ : ∃ f', f = f' + 1 := ⟨f - 1, by omega⟩
    by_cases h : n < base
    · simp [toDigitsGo, h]
    · simp only [toDigitsGo, if_neg h]
      have hdiv : n / base < n := Nat.div_lt_self (by omega) (by omega)
      rw [ih (n / base) hdiv f' _ (by omega), ih (n / base) hdiv n _ (by omega)]

lemma natToDigits_eq (base n : Nat) (hb : 2 ≤ base) :
    natToDigits base n =
      if n < base then [digitChar n]
      else natToDigits base (n / base) ++ [digitChar (n % base)] := by
  by_cases h : n < base
  · simp [natToDigits, toDigitsGo, h]
  · have hdiv : n / base < n := Nat.div_lt_self (by omega) (by omega)
    have h1 : natToDigits base n = toDigitsGo base n (n / base) [digitChar (n % base)] := by
      simp only [natToDigits, toDigitsGo, if_neg h]
    rw [h1, toDigitsGo_fuel base hb (n / base) n _ hdiv,
        toDigitsGo_append base (n / base + 1) (n / base) [digitChar (n % base)], if_neg h]
    rfl

lemma natToDigits_ne_nil (base n : Nat) (hb : 2 ≤ base) : natToDigits base n ≠ [] := by
  rw [natToDigits_eq base n hb]
  by_cases h : n < base <;> simp [h]

lemma natToDigits_mem (base : Nat) (hb : 2 ≤ base) :
    ∀ n, ∀ c ∈ natToDigits base n, ∃ d, d < base ∧ c = digitChar d := by
  intro n
  induction n using Nat.strong_induction_on with
  | _ n ih =>
    intro c hc
    rw [natToDigits_eq base n hb] at hc
    by_cases h : n < base
    · rw [if_pos h] at hc
      simp at hc
      exact ⟨n, h, hc⟩
    · rw [if_neg h] at hc
      rcases List.mem_append.mp hc with h1 | h2
      · exact ih (n / base) (Nat.div_lt_self (by omega) (by omega)) c h1
      · simp at h2
        exact ⟨n % base, Nat.mod_lt _ (by omega), h2⟩

lemma parseDigitsGo_append (radix : Nat) :
    ∀ (l1 l2 : List Char) (a : Nat),
      parseDigitsGo radix a (l1 ++ l2) =
        match parseDigitsGo radix a l1 with
        | some v => parseDigitsGo radix v l2
        | none => none := by
  intro l1
  induction l1 with
  | nil => intro l2 a; rfl
  | cons c t ih =>
    intro l2 a
    simp only [List.cons_append, parseDigitsGo]
    cases toDigit c radix with
    | none => rfl
    | some d => exact ih l2 (a * radix + d)

lemma parseDigitsGo_natToDigits (base : Nat) (hb : 2 ≤ base) (h16 : base ≤ 16) :
    ∀ n, parseDigitsGo base 0 (natToDigits base n) = some n := by
  intro n
  induction n using Nat.strong_induction_on with
  | _ n ih =>
    rw [natToDigits_eq base n hb]
    by_cases h : n < base
    · rw [if_pos h]
      simp [parseDigitsGo, toDigit_digitChar h (by omega)]
    · rw [if_neg h]
      rw [parseDigitsGo_append base (natToDigits base (n / base)) [digitChar (n % base)] 0]
      rw [ih (n / base) (Nat.div_lt_self (by omega) (by omega))]
      have hmod : n % base < base := Nat.mod_lt _ (by omega)
      simp only [parseDigitsGo, toDigit_digitChar hmod (by omega)]
      have hdm := Nat.div_add_mod n base
      have : n / base * base + n % base = n := by rw [Nat.mul_comm] at hdm; exact hdm
      rw [this]

lemma parseDigitsNat_natToDigits (base : Nat) (hb : 2 ≤ base) (h16 : base ≤ 16) (n : Nat) :
    parseDigitsNat base (natToDigits base n) = some n := by
  unfold parseDigitsNat
  rw [if_neg (natToDigits_ne_nil base n hb)]
  exact parseDigitsGo_natToDigits base hb h16 n

lemma i64FromStrRadix_natToDigits (base : Nat) (hb : 2 ≤ base) (h16 : base ≤ 16)
    (n : Nat) (hr : n ≤ 2 ^ 63 - 1) :
    i64FromStrRadix base (natToDigits base n) = some (n : Int) := by
  obtain ⟨c, t, hct⟩ : ∃ c t, natToDigits base n = c :: t := by
    cases h : natToDigits base n with
    | nil => exact absurd h (natToDigits_ne_nil base n hb)
    | cons c t => exact ⟨c, t, rfl⟩
  obtain ⟨d, hd, hcd⟩ := natToDigits_mem base hb n c (hct ▸ List.mem_cons_self c t)
  have hplus : ¬ c = '+' := hcd ▸ digitChar_ne_plus (by omega)
  have hminus : ¬ c = '-' := hcd ▸ digitChar_ne_minus (by omega)
  rw [hct]
  simp only [i64FromStrRadix]
  rw [if_neg hplus, if_neg hminus, ← hct, parseDigitsNat_natToDigits base hb h16 n]
  simp [posRange]
  omega

/-
Shape lemmas: which `parse_num` rule a pure-digit literal selects, and the
shapes of the converter's outputs.
-/

lemma mem_of_getLastQ : ∀ {l : List Char} {c : Char}, l.getLast? = some c → c ∈ l := by
  intro l
  induction l with
  | nil => intro c h; simp [List.getLast?] at h
  | cons a t ih =>
    intro c h
    cases t with
    | nil =>
      simp [List.getLast?] at h
      simp [h]
    | cons b t2 =>
      rw [List.getLast?_cons_cons] at h
      exact List.mem_cons_of_mem _ (ih h)

lemma startsWith1_false_head (a c : Char) (t : List Char) (h : c ≠ a) :
    startsWith1 a (c :: t) = false := by
  simp [startsWith1, h]

lemma startsWith2_false_head (a b c : Char) (t : List Char) (h : c ≠ a) :
    startsWith2 a b (c :: t) = false := by
  cases t with
  | nil => rfl
  | cons y t2 => simp [startsWith2, h]

lemma endsWith1_false_of (a : Char) (l : List Char) (h : ∀ c ∈ l, c ≠ a) :
    endsWith1 a l = false := by
  unfold endsWith1
  cases hl : l.getLast? with
  | none => rfl
  | some c => simp [h c (mem_of_getLastQ hl)]

lemma digitChar_lt10_ne {d : Nat} (h : d < 10) :
    digitChar d ≠ 'b' ∧ digitChar d ≠ 'F' ∧ digitChar d ≠ 'B' ∧ digitChar d ≠ 'O' ∧
    digitChar d ≠ 'd' ∧ digitChar d ≠ 'f' ∧ digitChar d ≠ 'o' ∧ digitChar d ≠ 'x' := by
  interval_cases d <;> decide

/-- A nonempty string of decimal digit characters falls through to the
last (bare decimal) rule of the converter. -/
lemma parse_num_core_decimal (fops : FloatOps) (ds : List Char) (hne : ds ≠ [])
    (hmem : ∀ c ∈ ds, ∃ d, d < 10 ∧ c = digitChar d) :
    parse_num_core fops ds =
      match i64FromStrRadix 10 ds with
      | some num => .ok ('0' :: 'x' :: natToDigits 16 (toU64 num))
      | none => .error .ParseIntError := by
  obtain ⟨c, t, rfl⟩ : ∃ c t, ds = c :: t := by
    cases ds with
    | nil => exact absurd rfl hne
    | cons c t => exact ⟨c, t, rfl⟩
  obtain ⟨d, hd, hcd⟩ := hmem c (List.mem_cons_self c t)
  have hS0x : startsWith2 '0' 'x' (c :: t) = false := by
    cases t with
    | nil => rfl
    | cons y t2 =>
      obtain ⟨dy, hdy, hy⟩ := hmem y (by simp)
      have hyx : y ≠ 'x' := hy ▸ (digitChar_lt10_ne hdy).2.2.2.2.2.2.2
      simp [startsWith2, hyx]
  have hSb : startsWith1 'b' (c :: t) = false :=
    startsWith1_false_head _ _ _ (hcd ▸ (digitChar_lt10_ne hd).1)
  have hSF : startsWith2 'F' 'x' (c :: t) = false :=
    startsWith2_false_head _ _ _ _ (hcd ▸ (digitChar_lt10_ne hd).2.1)
  have hSB : startsWith2 'B' 'x' (c :: t) = false :=
    startsWith2_false_head _ _ _ _ (hcd ▸ (digitChar_lt10_ne hd).2.2.1)
  have hSO : startsWith2 'O' 'x' (c :: t) = false :=
    startsWith2_false_head _ _ _ _ (hcd ▸ (digitChar_lt10_ne hd).2.2.2.1)
  have hEd : endsWith1 'd' (c :: t) = false := by
    apply endsWith1_false_of
    intro x hx
    obtain ⟨dx, hdx, hxx⟩ := hmem x hx
    exact hxx ▸ (digitChar_lt10_ne hdx).2.2.2.2.1
  have hEf : endsWith1 'f' (c :: t) = false := by
    apply endsWith1_false_of
    intro x hx
    obtain ⟨dx, hdx, hxx⟩ := hmem x hx
    exact hxx ▸ (digitChar_lt10_ne hdx).2.2.2.2.2.1
  have hEo : endsWith1 'o' (c :: t) = false := by
    apply endsWith1_false_of
    intro x hx
    obtain ⟨dx, hdx, hxx⟩ := hmem x hx
    exact hxx ▸ (digitChar_lt10_ne hdx).2.2.2.2.2.2.1
  have hEb : endsWith1 'b' (c :: t) = false := by
    apply endsWith1_false_of
    intro x hx
    obtain ⟨dx, hdx, hxx⟩ := hmem x hx
    exact hxx ▸ (digitChar_lt10_ne hdx).1
  cases hres : i64FromStrRadix 10 (c :: t) with
  | none => simp [parse_num_core, hS0x, hSb, hSF, hSB, hSO, hEd, hEf, hEo, hEb, hres]
  | some v => simp [parse_num_core, hS0x, hSb, hSF, hSB, hSO, hEd, hEf, hEo, hEb, hres]

lemma hexTag_shape (X : Nat) : isHexTaggedL ('0' :: 'x' :: natToDigits 16 X) = true := by
  have h2 : (natToDigits 16 X).all isHexDigitCh = true := by
    rw [List.all_eq_true]
    intro c hc
    obtain ⟨d, hd, rfl⟩ := natToDigits_mem 16 (by omega) X c hc
    exact digitChar_isHex hd
  obtain ⟨c, t, hct⟩ : ∃ c t, natToDigits 16 X = c :: t := by
    cases h : natToDigits 16 X with
    | nil => exact absurd h (natToDigits_ne_nil 16 X (by omega))
    | cons c t => exact ⟨c, t, rfl⟩
  rw [hct] at h2 ⊢
  simp [isHexTaggedL, h2]

lemma binTag_shape (X : Nat) : isBinTaggedL (natToDigits 2 X ++ ['b']) = true := by
  have h2 : (natToDigits 2 X).all isDigitCh = true := by
    rw [List.all_eq_true]
    intro c hc
    obtain ⟨d, hd, rfl⟩ := natToDigits_mem 2 (by omega) X c hc
    exact digitChar_isDigit (by omega)
  unfold isBinTaggedL
  rw [List.getLast?_concat, List.dropLast_concat]
  have hne : (natToDigits 2 X).isEmpty = false := by
    cases h : natToDigits 2 X with
    | nil => exact absurd h (natToDigits_ne_nil 2 X (by omega))
    | cons c t => rfl
  simp [hne, h2]

lemma normalizeLit_of_normalized (fops : FloatOps) {l : List Char}
    (h : isNormalized l = true) : ∀ fuel, normalizeLit fops fuel l = some l := by
  intro fuel
  cases fuel <;> simp [normalizeLit, h]

lemma isNormalized_digits {ds : List Char} (h : ∀ c ∈ ds, isDigitCh c = true) :
    isNormalized ds = true := by
  rw [isNormalized, List.all_eq_true]
  intro c hc
  simp [isNormChar, h c hc]

lemma parseDigitsGo_digits :
    ∀ (ds : List Char), (∀ c ∈ ds, isDigitCh c = true) →
      ∀ a, parseDigitsGo 10 a ds =
        some (ds.foldl (fun x c => x * 10 + (c.toNat - 48)) a) := by
  intro ds
  induction ds with
  | nil => intro _ a; rfl
  | cons c t ih =>
    intro h a
    have hc := h c (List.mem_cons_self c t)
    have hb : 48 ≤ c.toNat ∧ c.toNat ≤ 57 := by simpa [isDigitCh] using hc
    have hdig : toDigit c 10 = some (c.toNat - 48) := by
      unfold toDigit charDigitVal
      rw [if_pos hb]
      show (if c.toNat - 48 < 10 then some (c.toNat - 48) else none) = some (c.toNat - 48)
      rw [if_pos (by omega)]
    simp only [parseDigitsGo, hdig, List.foldl]
    exact ih (fun x hx => h x (List.mem_cons_of_mem c hx)) (a * 10 + (c.toNat - 48))

lemma hexTag_of_match {A : Type} (opt : Option A) (F : A → Nat)
    (E : BaseConversionError) (out : List Char)
    (h : (match opt with
          | some v => Except.ok ('0' :: 'x' :: natToDigits 16 (F v))
          | none => (Except.error E : Except BaseConversionError (List Char))) =
         Except.ok out) :
    isHexTaggedL out = true := by
  cases opt with
  | none => simp at h
  | some v =>
    simp only [Except.ok.injEq] at h
    rw [← h]
    exact hexTag_shape (F v)

lemma toDigit10_inv (c : Char) (d : Nat) (h : toDigit c 10 = some d) :
    isDigitCh c = true ∧ d = c.toNat - 48 := by
  unfold toDigit at h
  cases hcv : charDigitVal c with
  | none => rw [hcv] at h; simp at h
  | some e =>
    rw [hcv] at h
    have h' : (if e < 10 then some e else none) = some d := h
    by_cases he : e < 10
    · rw [if_pos he] at h'
      have hed : e = d := by simpa using h'
      unfold charDigitVal at hcv
      by_cases h1 : 48 ≤ c.toNat ∧ c.toNat ≤ 57
      · rw [if_pos h1] at hcv
        have hce : c.toNat - 48 = e := by simpa using hcv
        refine ⟨by simp [isDigitCh, h1], by omega⟩
      · rw [if_neg h1] at hcv
        by_cases h2 : 97 ≤ c.toNat ∧ c.toNat ≤ 122
        · rw [if_pos h2] at hcv
          have hce : c.toNat - 87 = e := by simpa using hcv
          omega
        · rw [if_neg h2] at hcv
          by_cases h3 : 65 ≤ c.toNat ∧ c.toNat ≤ 90
          · rw [if_pos h3] at hcv
            have hce : c.toNat - 55 = e := by simpa using hcv
            omega
          · rw [if_neg h3] at hcv
            simp at hcv
    · rw [if_neg he] at h'
      simp at h'

lemma parseDigitsGo10_inv : ∀ (l : List Char) (a v : Nat),
    parseDigitsGo 10 a l = some v →
    (∀ c ∈ l, isDigitCh c = true) ∧
    v = l.foldl (fun x c => x * 10 + (c.toNat - 48)) a := by
  intro l
  induction l with
  | nil =>
    intro a v h
    simp [parseDigitsGo] at h
    exact ⟨by simp, by simp [List.foldl]; omega⟩
  | cons c t ih =>
    intro a v h
    simp only [parseDigitsGo] at h
    cases htd : toDigit c 10 with
    | none => rw [htd] at h; simp at h
    | some d =>
      rw [htd] at h
      obtain ⟨hcd, hde⟩ := toDigit10_inv c d htd
      obtain ⟨hmem, hval⟩ := ih (a * 10 + d) v h
      constructor
      · intro x hx
        rcases List.mem_cons.mp hx with rfl | hx
        · exact hcd
        · exact hmem x hx
      · simp only [List.foldl]
        rw [hval, hde]

/-- A successful base-10 digit parse implies the string was a nonempty
all-digit string with the expected value. -/
lemma parseDigitsNat10_inv (l : List Char) (v : Nat)
    (h : parseDigitsNat 10 l = some v) :
    l ≠ [] ∧ (∀ c ∈ l, isDigitCh c = true) ∧ v = decimalVal l := by
  unfold parseDigitsNat at h
  by_cases hl : l = []
  · rw [if_pos hl] at h
    simp at h
  · rw [if_neg hl] at h
    obtain ⟨h1, h2⟩ := parseDigitsGo10_inv l 0 v h
    exact ⟨hl, h1, h2⟩

/-- A nonempty all-digit string within range parses (no sign path). -/
lemma i64FromStrRadix_digits (ds : List Char) (hne : ds ≠ [])
    (hdig : ∀ c ∈ ds, isDigitCh c = true) (hr : decimalVal ds ≤ 2 ^ 63 - 1) :
    i64FromStrRadix 10 ds = some ((decimalVal ds : Int)) := by
  have hpd : parseDigitsNat 10 ds = some (decimalVal ds) := by
    unfold parseDigitsNat
    rw [if_neg hne]
    exact parseDigitsGo_digits ds hdig 0
  obtain ⟨c, t, rfl⟩ : ∃ c t, ds = c :: t := by
    cases ds with
    | nil => exact absurd rfl hne
    | cons c t => exact ⟨c, t, rfl⟩
  have hc := hdig c (List.mem_cons_self c t)
  have hcb : 48 ≤ c.toNat ∧ c.toNat ≤ 57 := by simpa [isDigitCh] using hc
  have hcp : ¬ c = '+' := by intro h; subst h; exact absurd hcb (by decide)
  have hcm : ¬ c = '-' := by intro h; subst h; exact absurd hcb (by decide)
  simp only [i64FromStrRadix]
  rw [if_neg hcp, if_neg hcm, hpd]
  show posRange (decimalVal (c :: t)) = some ((decimalVal (c :: t) : Int))
  unfold posRange
  rw [if_pos hr]

/-- A `-` followed by a nonempty all-digit string within range parses to
the negated value. -/
lemma i64FromStrRadix_neg_digits (ds : List Char) (hne : ds ≠ [])
    (hdig : ∀ c ∈ ds, isDigitCh c = true) (hr : decimalVal ds ≤ 2 ^ 63) :
    i64FromStrRadix 10 ('-' :: ds) = some (-(decimalVal ds : Int)) := by
  have hpd : parseDigitsNat 10 ds = some (decimalVal ds) := by
    unfold parseDigitsNat
    rw [if_neg hne]
    exact parseDigitsGo_digits ds hdig 0
  simp only [i64FromStrRadix]
  rw [if_pos trivial, hpd]
  show negRange (decimalVal ds) = some (-(decimalVal ds : Int))
  unfold negRange
  rw [if_pos hr]

/-
The ten claims.
-/

/-- Claim C1, counterexample: on input `"3 + 4 * 2"` the transformer does
not produce the postfix equivalent of `3 4 2 * +`, and evaluation does not
yield 11. -/
theorem c1_counterexample :
    infix_to_postfix (tokenize dummyFops "3 + 4 * 2") ≠
      [Token.Number "0x3", Token.Number "0x4", Token.Number "0x2",
       Token.Star, Token.Plus] ∧
    eval_expr dummyFops 8 ( infix_to_postfix (tokenize dummyFops "3 + 4 * 2")) ≠
      EvalOutcome.ok 11 := by
  decide

/-- Claim C1, amended: `"3 + 4 * 2"` tokenizes and transforms to the
postfix equivalent of `3 4 + 2 *` and evaluates to 14 — the operators all
share one precedence level and associate to the left, so the earlier `+`
is applied before the later `*`. -/
theorem c1_amended :
    infix_to_postfix (tokenize dummyFops "3 + 4 * 2") =
      [Token.Number "0x3", Token.Number "0x4", Token.Plus,
       Token.Number "0x2", Token.Star] ∧
    eval_expr dummyFops 8 ( infix_to_postfix (tokenize dummyFops "3 + 4 * 2")) =
      EvalOutcome.ok 14 := by
  decide

/-- Claim C2: in batch mode with argument `"255"` and no forced base, the
converter does produce `"0xff"`, but the program prints nothing — the
default print of the converted literal sits inside `if base.is_some()` and
is dead code, contradicting the documented behaviour. -/
theorem c2_batch_silent :
    parse_num dummyFops "255" = Except.ok "0xff" ∧
    batchMain dummyFops 4 ["raxrs", "255"] = some [] := by
  decide

/-- Claim C3: a `Number` token whose payload never reduces to pure digits
makes the evaluator loop forever instead of returning an error.  The
literal `"q"` is left unchanged by every conversion attempt, so the
normalization loop never exits (`none` for every fuel bound) and the
evaluator diverges rather than producing any result. -/
theorem c3_nontermination :
    (∀ (fops : FloatOps) (n : Nat), normalizeLit fops n ['q'] = none) ∧
    (∀ (fops : FloatOps) (fuel : Nat),
      eval_expr fops fuel [Token.Number "q"] = EvalOutcome.diverge) := by
  have key : ∀ (fops : FloatOps) (n : Nat), normalizeLit fops n ['q'] = none := by
    intro fops n
    induction n with
    | zero => rfl
    | succ k ih => exact ih
  refine ⟨key, ?_⟩
  intro fops fuel
  show evalAux fops fuel [Token.Number "q"] [] = EvalOutcome.diverge
  simp only [evalAux]
  rw [key fops fuel]

/-- Claim C8: whenever a division is executed with first-popped operand 0,
the evaluator stops with the dedicated `"Division by zero"` error, whatever
the rest of the input and stack are; in particular `"5 / 0"` evaluates to
that failure. -/
theorem c8_division_by_zero :
    (∀ (fops : FloatOps) (fuel : Nat) (rest : List Token) (b : Int) (s : List Int),
      evalAux fops fuel (Token.Slash :: rest) (0 :: b :: s) =
        EvalOutcome.error "Division by zero") ∧
    eval_expr dummyFops 8 ( infix_to_postfix (tokenize dummyFops "5 / 0")) =
      EvalOutcome.error "Division by zero" := by
  refine ⟨?_, by decide⟩
  intro fops fuel rest b s
  simp [evalAux]

/-- Claim C9: an operator with fewer than two operands on the stack, or an
empty stack at the end of evaluation, yields the `"Invalid expression"`
error; in particular the single token `+` evaluates to that failure. -/
theorem c9_underflow :
    (∀ (fops : FloatOps) (fuel : Nat) (op : Token) (rest : List Token) (stack : List Int),
      (op = Token.Plus ∨ op = Token.Minus ∨ op = Token.Star ∨ op = Token.Slash) →
      stack.length ≤ 1 →
      evalAux fops fuel (op :: rest) stack = EvalOutcome.error "Invalid expression") ∧
    (∀ (fops : FloatOps) (fuel : Nat),
      evalAux fops fuel [] [] = EvalOutcome.error "Invalid expression") ∧
    eval_expr dummyFops 8 [Token.Plus] = EvalOutcome.error "Invalid expression" := by
  refine ⟨?_, fun fops fuel => rfl, by decide⟩
  intro fops fuel op rest stack hop hlen
  have hst : stack = [] ∨ ∃ x, stack = [x] := by
    cases stack with
    | nil => exact Or.inl rfl
    | cons a t =>
      cases t with
      | nil => exact Or.inr ⟨a, rfl⟩
      | cons b t2 => simp at hlen
  rcases hop with rfl | rfl | rfl | rfl <;> rcases hst with rfl | ⟨x, rfl⟩ <;> simp [evalAux]

/-- Claim C9, witness: a `-` with a single operand fails as stated. -/
theorem c9_underflow_witness :
    evalAux dummyFops 1 [Token.Minus] [(5 : Int)] =
      EvalOutcome.error "Invalid expression" :=
  c9_underflow.1 dummyFops 1 Token.Minus [] [5] (Or.inr (Or.inl rfl)) (by decide)

/-- Claim C10: every operator pops `a` first (the most recently pushed
value) and `b` second and computes `b OP a` (64-bit semantics), so the
left-hand operand of `-` and `/` is the one pushed earlier; in particular
`"(3 + 4) * 2"` evaluates to 14. -/
theorem c10_operand_order :
    (∀ (fops : FloatOps) (fuel : Nat) (rest : List Token) (a b : Int) (s : List Int),
      evalAux fops fuel (Token.Plus :: rest) (a :: b :: s) =
        evalAux fops fuel rest (wrap64 (b + a) :: s) ∧
      evalAux fops fuel (Token.Minus :: rest) (a :: b :: s) =
        evalAux fops fuel rest (wrap64 (b - a) :: s) ∧
      evalAux fops fuel (Token.Star :: rest) (a :: b :: s) =
        evalAux fops fuel rest (wrap64 (b * a) :: s) ∧
      (a ≠ 0 → ¬(b = -(2 ^ 63) ∧ a = -1) →
        evalAux fops fuel (Token.Slash :: rest) (a :: b :: s) =
          evalAux fops fuel rest (Int.tdiv b a :: s))) ∧
    eval_expr dummyFops 8 ( infix_to_postfix (tokenize dummyFops "(3 + 4) * 2")) =
      EvalOutcome.ok 14 := by
  refine ⟨?_, by decide⟩
  intro fops fuel rest a b s
  refine ⟨rfl, rfl, rfl, fun h1 h2 => ?_⟩
  show (if a = 0 then EvalOutcome.error "Division by zero"
        else if b = -(2 ^ 63) ∧ a = -1 then EvalOutcome.panic
        else evalAux fops fuel rest (Int.tdiv b a :: s)) =
       evalAux fops fuel rest (Int.tdiv b a :: s)
  rw [if_neg h1, if_neg h2]

/-- Claim C10, witness: `7 / 2` in postfix order — divisor on top. -/
theorem c10_operand_order_witness :
    evalAux dummyFops 1 [Token.Slash] [(2 : Int), 7] =
      evalAux dummyFops 1 [] [Int.tdiv 7 2] :=
  (c10_operand_order.1 dummyFops 1 [] 2 7 []).2.2.2 (by decide) (by decide)

/-- Claim C4, counterexample: the token `Number "1.5"` (such a payload is
produced by the tokenizer for input `Fx3ff8000000000000`) passes the
digits/dot/sign character check unchanged, then the final base-10 parse
fails and the `.unwrap()` aborts the process — the failure branch is
reachable. -/
theorem c4_counterexample :
    eval_expr dummyFops 5 [Token.Number "1.5"] = EvalOutcome.panic := by
  decide

/-- Claim C4, amended: evaluation can abort the process, in two ways.
The final base-10 parse's failure branch is reachable — payload `"1.5"`
(producible by the tokenizer from input `Fx3ff8000000000000`) passes the
digits/dot/sign character check, fails the parse, and the `.unwrap()`
aborts — and division overflow (`i64::MIN / -1`, whose operands are
themselves well-formed payloads) aborts as well.  What does hold: for a
payload that has passed the character check, the final base-10 parse
succeeds if and only if the payload is a nonempty digit string, optionally
with a single leading `-`, whose value is within the signed 64-bit range;
when the parse succeeds the evaluator pushes the value and continues, and
when it fails the evaluator aborts at that token. -/
theorem c4_amended :
    (∀ s : List Char, isNormalized s = true →
      ((i64FromStrRadix 10 s).isSome = true ↔
        ((s ≠ [] ∧ (∀ c ∈ s, isDigitCh c = true) ∧ decimalVal s ≤ 2 ^ 63 - 1) ∨
         (∃ ds, s = '-' :: ds ∧ ds ≠ [] ∧ (∀ c ∈ ds, isDigitCh c = true) ∧
           decimalVal ds ≤ 2 ^ 63)))) ∧
    (∀ (fops : FloatOps) (fuel : Nat) (num : String) (rest : List Token)
        (stack : List Int) (s : List Char),
      normalizeLit fops fuel num.data = some s →
      (i64FromStrRadix 10 s = none →
        evalAux fops fuel (Token.Number num :: rest) stack = EvalOutcome.panic) ∧
      (∀ v : Int, i64FromStrRadix 10 s = some v →
        evalAux fops fuel (Token.Number num :: rest) stack =
          evalAux fops fuel rest (v :: stack))) ∧
    eval_expr dummyFops 3
      [Token.Number "-9223372036854775808", Token.Number "-1", Token.Slash] =
      EvalOutcome.panic := by
  refine ⟨?_, ?_, by decide⟩
  · intro s hnorm
    unfold isNormalized at hnorm
    rw [List.all_eq_true] at hnorm
    constructor
    · intro hsome
      cases s with
      | nil => simp [i64FromStrRadix] at hsome
      | cons c rest =>
        have hcp : ¬ c = '+' := by
          intro h
          subst h
          exact absurd (hnorm '+' (List.mem_cons_self _ _)) (by decide)
        by_cases hcm : c = '-'
        · subst hcm
          have heq : i64FromStrRadix 10 ('-' :: rest) =
              (parseDigitsNat 10 rest).bind negRange := by
            simp [i64FromStrRadix]
          rw [heq] at hsome
          cases hpn : parseDigitsNat 10 rest with
          | none => rw [hpn] at hsome; simp at hsome
          | some v =>
            rw [hpn] at hsome
            have hsome2 : (negRange v).isSome = true := hsome
            unfold negRange at hsome2
            by_cases hv : v ≤ 2 ^ 63
            · obtain ⟨hne2, hdig2, hval2⟩ := parseDigitsNat10_inv rest v hpn
              exact Or.inr ⟨rest, rfl, hne2, hdig2, by omega⟩
            · rw [if_neg hv] at hsome2
              simp at hsome2
        · have heq : i64FromStrRadix 10 (c :: rest) =
              (parseDigitsNat 10 (c :: rest)).bind posRange := by
            simp [i64FromStrRadix, hcp, hcm]
          rw [heq] at hsome
          cases hpn : parseDigitsNat 10 (c :: rest) with
          | none => rw [hpn] at hsome; simp at hsome
          | some v =>
            rw [hpn] at hsome
            have hsome2 : (posRange v).isSome = true := hsome
            unfold posRange at hsome2
            by_cases hv : v ≤ 2 ^ 63 - 1
            · obtain ⟨hne2, hdig2, hval2⟩ := parseDigitsNat10_inv (c :: rest) v hpn
              exact Or.inl ⟨hne2, hdig2, by omega⟩
            · rw [if_neg hv] at hsome2
              simp at hsome2
    · intro hshape
      rcases hshape with ⟨hne2, hdig2, hval2⟩ | ⟨ds, rfl, hne2, hdig2, hval2⟩
      · rw [i64FromStrRadix_digits s hne2 hdig2 hval2]
        rfl
      · rw [i64FromStrRadix_neg_digits ds hne2 hdig2 hval2]
        rfl
  · intro fops fuel num rest stack s hnorm
    constructor
    · intro hp
      simp only [evalAux, hnorm, hp]
    · intro v hp
      simp only [evalAux, hnorm, hp]

/-- Claim C4, witness: the payload `"99"` is already normalized, its parse
succeeds by the right-to-left direction of the characterization, and the
evaluator pushes 99 and continues. -/
theorem c4_amended_witness :
    (i64FromStrRadix 10 ['9', '9']).isSome = true ∧
    evalAux dummyFops 1 [Token.Number (String.mk ['9', '9'])] [] =
      evalAux dummyFops 1 [] [(99 : Int)] := by
  refine ⟨?_, ?_⟩
  · exact (c4_amended.1 ['9', '9'] (by decide)).mpr
      (Or.inl ⟨by decide, by decide, by decide⟩)
  · exact (c4_amended.2.1 dummyFops 1 (String.mk ['9', '9']) [] []
      ['9', '9'] (by decide)).2 99 (by decide)

/-- Claim C5, counterexample: converting the decimal string of `-1` yields
the two's-complement hex string `0xffffffffffffffff`, and converting that
back through the `0x` rule fails with `ParseIntError` instead of returning
`-1` — the round trip does not hold for negative 64-bit integers. -/
theorem c5_counterexample :
    parse_num dummyFops "-1" = Except.ok "0xffffffffffffffff" ∧
    parse_num dummyFops "0xffffffffffffffff" =
      Except.error BaseConversionError.ParseIntError := by
  decide

/-- Claim C5, amended: for every nonnegative 64-bit integer `n` (that is,
`0 ≤ n < 2 ^ 63`), the bare-decimal rule converts the decimal string of
`n` to the hex-tagged string `0x…`, and the `0x` rule converts that string
back to the decimal string of `n`; the round trip is a bijection on the
nonnegative representable integers only. -/
theorem c5_amended (fops : FloatOps) (n : Int) (h0 : 0 ≤ n) (h1 : n < 2 ^ 63) :
    parse_num fops (String.mk (i64ToStringL n)) =
      Except.ok (String.mk ('0' :: 'x' :: natToDigits 16 n.toNat)) ∧
    parse_num fops (String.mk ('0' :: 'x' :: natToDigits 16 n.toNat)) =
      Except.ok (String.mk (i64ToStringL n)) := by
  have hts : i64ToStringL n = natToDigits 10 n.toNat := by
    unfold i64ToStringL
    rw [if_neg (by omega)]
  have hrange : n.toNat ≤ 2 ^ 63 - 1 := by omega
  have hcast : ((n.toNat : Int)) = n := Int.toNat_of_nonneg h0
  have hU : toU64 n = n.toNat := by
    unfold toU64
    have hmod : n % (2 ^ 64 : Int) = n := Int.emod_eq_of_lt h0 (by omega)
    have hmod' : Int.emod n (2 ^ 64) = n := hmod
    rw [hmod']
  constructor
  · unfold parse_num
    rw [show (String.mk (i64ToStringL n)).data = i64ToStringL n from rfl, hts]
    rw [parse_num_core_decimal fops _ (natToDigits_ne_nil 10 n.toNat (by omega))
        (natToDigits_mem 10 (by omega) n.toNat)]
    rw [i64FromStrRadix_natToDigits 10 (by omega) (by omega) n.toNat hrange]
    show Except.ok (String.mk ('0' :: 'x' :: natToDigits 16 (toU64 ((n.toNat : Int))))) =
      Except.ok (String.mk ('0' :: 'x' :: natToDigits 16 n.toNat))
    rw [hcast, hU]
  · unfold parse_num
    rw [show (String.mk ('0' :: 'x' :: natToDigits 16 n.toNat)).data =
        '0' :: 'x' :: natToDigits 16 n.toNat from rfl]
    have hsw : startsWith2 '0' 'x' ('0' :: 'x' :: natToDigits 16 n.toNat) = true := rfl
    simp only [parse_num_core, hsw]
    rw [if_pos trivial]
    have hdrop : List.drop 2 ('0' :: 'x' :: natToDigits 16 n.toNat) =
        natToDigits 16 n.toNat := rfl
    rw [hdrop, i64FromStrRadix_natToDigits 16 (by omega) (by omega) n.toNat hrange]
    show Except.ok (String.mk (i64ToStringL ((n.toNat : Int)))) =
      Except.ok (String.mk (i64ToStringL n))
    rw [hcast]

/-- Claim C5, witness: the round trip at `n = 255` (`"255"` to `"0xff"`
and back). -/
theorem c5_amended_witness :
    parse_num dummyFops (String.mk (i64ToStringL 255)) =
      Except.ok (String.mk ('0' :: 'x' :: natToDigits 16 (255 : Int).toNat)) ∧
    parse_num dummyFops (String.mk ('0' :: 'x' :: natToDigits 16 (255 : Int).toNat)) =
      Except.ok (String.mk (i64ToStringL 255)) :=
  c5_amended dummyFops 255 (by decide) (by decide)

/-- Claim C6, counterexample: with arguments `["10", "=16"]` (flag last)
the program evaluates the flag argument `"=16"` itself — printing a parse
error — and never converts or prints `"10"`; the matching argument is not
the one excluded. -/
theorem c6_counterexample :
    batchMain dummyFops 4 ["raxrs", "10", "=16"] =
      some ["Error: Failed to parse input"] ∧
    batchMain dummyFops 4 ["raxrs", "10", "=16"] ≠ some ["0xa"] := by
  decide

/-- Claim C6, amended: an argument `=<base>` with base in `{f,2,8,10,16}`
found anywhere selects the forced output format, but the program always
excludes exactly the first expression argument (index 1) from evaluation,
not necessarily the matching one; the remaining arguments are each
independently converted and printed.  When the flag is passed first, as in
`["=16", "10"]`, the output is `0xa` as the claim states. -/
theorem c6_amended :
    (∀ (fops : FloatOps) (fuel : Nat) (argv : List String) (b : String),
      check_force_output argv = some b →
      batchMain fops fuel argv = runAll fops fuel (some b) (argv.drop 2)) ∧
    batchMain dummyFops 4 ["raxrs", "=16", "10"] = some ["0xa"] := by
  constructor
  · intro fops fuel argv b h
    simp [batchMain, h]
  · decide

/-- Claim C6, witness: the flag `=2` in second position forces base 2 and
processing starts at the third argument. -/
theorem c6_amended_witness :
    batchMain dummyFops 3 ["p", "=2", "7"] =
      runAll dummyFops 3 (some "2") (["p", "=2", "7"].drop 2) :=
  c6_amended.1 dummyFops 3 ["p", "=2", "7"] "2" (by decide)

/-- Claim C7, counterexample: the literal `0xff` is accepted by the
converter and tokenizes to `Number "255"`, whose payload is neither a
hex-tagged nor a binary-tagged string — the tokenizer does store converter
output, but that output is not always one of the two claimed shapes. -/
theorem c7_counterexample :
    tokenize dummyFops "0xff" = [Token.Number "255"] ∧
    isHexTagged "255" = false ∧ isBinTagged "255" = false := by
  decide

/-- Claim C7, amended: converter output is canonically tagged only for
some rules — every literal matched by the `b` prefix rule produces a
binary-tagged string (digits followed by `b`), and every literal that
matches none of the five prefix rules and does not end in `d` (i.e. is
handled by the trailing-`f`/`o`/`b` rules or the bare-decimal default)
produces a hex-tagged string `0x…`; the `0x`, `Fx`, `Bx`, `Ox` and
trailing-`d` rules instead produce plain decimal, float, binary or octal
strings. -/
theorem c7_amended (fops : FloatOps) (l out : List Char)
    (h : parse_num_core fops l = Except.ok out) :
    (startsWith1 'b' l = true → isBinTaggedL out = true) ∧
    (startsWith2 '0' 'x' l = false → startsWith1 'b' l = false →
     startsWith2 'F' 'x' l = false → startsWith2 'B' 'x' l = false →
     startsWith2 'O' 'x' l = false → endsWith1 'd' l = false →
     isHexTaggedL out = true) := by
  constructor
  · intro hb
    obtain ⟨c, t, rfl⟩ : ∃ c t, l = c :: t := by
      cases l with
      | nil => simp [startsWith1] at hb
      | cons c t => exact ⟨c, t, rfl⟩
    have hcb : c = 'b' := by simpa [startsWith1] using hb
    subst hcb
    have h0x : startsWith2 '0' 'x' ('b' :: t) = false :=
      startsWith2_false_head _ _ _ _ (by decide)
    cases hres : i64FromStrRadix 10 t with
    | none =>
      rw [show parse_num_core fops ('b' :: t) = Except.error BaseConversionError.ParseIntError from by
        simp [parse_num_core, h0x, startsWith1, hres]] at h
      simp at h
    | some v =>
      rw [show parse_num_core fops ('b' :: t) = Except.ok (natToDigits 2 (toU64 v) ++ ['b']) from by
        simp [parse_num_core, h0x, startsWith1, hres]] at h
      simp only [Except.ok.injEq] at h
      subst h
      exact binTag_shape (toU64 v)
  · intro h1 h2 h3 h4 h5 h6
    cases hf : endsWith1 'f' l with
    | true =>
      cases hres : fops.parseFloatBits l.dropLast with
      | none =>
        rw [show parse_num_core fops l = Except.error BaseConversionError.ParseIntError from by
          simp [parse_num_core, h1, h2, h3, h4, h5, h6, hf, hres]] at h
        simp at h
      | some bits =>
        rw [show parse_num_core fops l = Except.ok ('0' :: 'x' :: natToDigits 16 bits) from by
          simp [parse_num_core, h1, h2, h3, h4, h5, h6, hf, hres]] at h
        simp only [Except.ok.injEq] at h
        subst h
        exact hexTag_shape bits
    | false =>
      cases ho : endsWith1 'o' l with
      | true =>
        cases hres : i64FromStrRadix 8 l.dropLast with
        | none =>
          rw [show parse_num_core fops l = Except.error BaseConversionError.ParseIntError from by
            simp [parse_num_core, h1, h2, h3, h4, h5, h6, hf, ho, hres]] at h
          simp at h
        | some v =>
          rw [show parse_num_core fops l = Except.ok ('0' :: 'x' :: natToDigits 16 (toU64 v)) from by
            simp [parse_num_core, h1, h2, h3, h4, h5, h6, hf, ho, hres]] at h
          simp only [Except.ok.injEq] at h
          subst h
          exact hexTag_shape (toU64 v)
      | false =>
        cases hbs : endsWith1 'b' l with
        | true =>
          cases hres : i64FromStrRadix 2 l.dropLast with
          | none =>
            rw [show parse_num_core fops l = Except.error BaseConversionError.ParseIntError from by
              simp [parse_num_core, h1, h2, h3, h4, h5, h6, hf, ho, hbs, hres]] at h
            simp at h
          | some v =>
            rw [show parse_num_core fops l = Except.ok ('0' :: 'x' :: natToDigits 16 (toU64 v)) from by
              simp [parse_num_core, h1, h2, h3, h4, h5, h6, hf, ho, hbs, hres]] at h
            simp only [Except.ok.injEq] at h
            subst h
            exact hexTag_shape (toU64 v)
        | false =>
          cases hres : i64FromStrRadix 10 l with
          | none =>
            rw [show parse_num_core fops l = Except.error BaseConversionError.ParseIntError from by
              simp [parse_num_core, h1, h2, h3, h4, h5, h6, hf, ho, hbs, hres]] at h
            simp at h
          | some v =>
            rw [show parse_num_core fops l = Except.ok ('0' :: 'x' :: natToDigits 16 (toU64 v)) from by
              simp [parse_num_core, h1, h2, h3, h4, h5, h6, hf, ho, hbs, hres]] at h
            simp only [Except.ok.injEq] at h
            subst h
            exact hexTag_shape (toU64 v)

/-- Claim C7, witness: the default rule gives the hex-tagged `0x7` for
input `7`, and the `b` prefix rule gives the binary-tagged `101b` for
input `b5`. -/
theorem c7_amended_witness :
    isHexTaggedL ['0', 'x', '7'] = true ∧ isBinTaggedL ['1', '0', '1', 'b'] = true := by
  have ha := c7_amended dummyFops ['7'] ['0', 'x', '7'] (by decide)
  have hb := c7_amended dummyFops ['b', '5'] ['1', '0', '1', 'b'] (by decide)
  exact ⟨ha.2 (by decide) (by decide) (by decide) (by decide) (by decide) (by decide),
    hb.1 (by decide)⟩
